import Mathlib

/-!
Verification development for the `forumlib` static CSS cascade resolver
(`forumlib/css_layout_tools.py`).

The Python code is shallowly embedded as executable Lean definitions.
External collaborators (the CSS tokenizer `tinycss2`, the CSS parser
`cssutils`, and the selector matcher `cssselect`/`soup.select`) are modelled
as abstract inputs, following the repository's own architecture: selector
token lists, parsed declaration lists, and a boolean matching oracle are
parameters, never reimplemented.  All functions of the core module are
translated line by line from the source; each definition's doc comment
names the Python function and lines it embeds.
-/

namespace Forumlib

/-! ## Specificity (css_layout_tools.py lines 25-62) -/

/-- A CSS specificity triple `(a, b, c)` as used throughout the module. -/
abbrev Specificity : Type := Nat × Nat × Nat

/-- Selector token kinds as inspected by `_get_element_specificity`
(the `token.type` strings checked on lines 37-45).  Tokenization itself is
delegated to the external tokenizer (`tinycss2`); `other` stands for any
token whose `type` string is none of the five recognized kinds. -/
inductive Tok where
  | idSel
  | classSel
  | attrSel
  | pseudoClass (value : String)
  | typeSel
  | pseudoElem
  | other
deriving DecidableEq

/-- Pseudo-class names excluded from component `b` on line 41 of the source
(`['first-line', 'first-letter', 'before', 'after']`). -/
def pseudoElementNames : List String :=
  ["first-line", "first-letter", "before", "after"]

/-- One step of the `for token in tokens` loop of `_get_element_specificity`
(lines 36-45): the if/elif chain incrementing `(a, b, c)`. -/
def specStep (s : Specificity) (t : Tok) : Specificity :=
  match t with
  | .idSel => (s.1 + 1, s.2.1, s.2.2)
  | .classSel => (s.1, s.2.1 + 1, s.2.2)
  | .attrSel => (s.1, s.2.1 + 1, s.2.2)
  | .pseudoClass v =>
      if pseudoElementNames.contains v then s
      else (s.1, s.2.1 + 1, s.2.2)
  | .typeSel => (s.1, s.2.1, s.2.2 + 1)
  | .pseudoElem => (s.1, s.2.1, s.2.2 + 1)
  | .other => s

/-- Python's `c in s` membership test of a character in a string. -/
def strHasChar (s : String) (c : Char) : Bool :=
  s.toList.contains c

/-- The `except` branch of `_get_element_specificity` (lines 46-52): the
syntactic heuristic on the raw selector text, reached only when the
tokenizer raises. -/
def specFallback (selectorText : String) : Specificity :=
  if strHasChar selectorText '#' then (1, 0, 0)
  else if strHasChar selectorText '.' || strHasChar selectorText '['
      || strHasChar selectorText ':' then (0, 1, 0)
  else (0, 0, 1)

/-- Embeds `_get_element_specificity` (lines 25-53).  The external
tokenizer's result is passed in: `some toks` when
`tinycss2.parse_component_value_list` returns a token list, `none` when it
raises (the only statement inside the `try` that can raise; the counting
loop itself is total).  On success the token counts are returned even when
every token is unrecognized; the heuristic runs only on failure. -/
def getElementSpecificity (tokens : Option (List Tok)) (selectorText : String) :
    Specificity :=
  match tokens with
  | some toks => toks.foldl specStep (0, 0, 0)
  | none => specFallback selectorText

/-- Embeds `_compare_specificity` (lines 55-62): `true` iff `s1` is
lexicographically greater than or equal to `s2`. -/
def compareSpecificity (s1 s2 : Specificity) : Bool :=
  if s1.1 > s2.1 then true
  else if s1.1 < s2.1 then false
  else if s1.2.1 > s2.2.1 then true
  else if s1.2.1 < s2.2.1 then false
  else if s1.2.2 > s2.2.2 then true
  else if s1.2.2 < s2.2.2 then false
  else true

/-- Strict lexicographic order on specificity triples, as used by Python's
tuple comparison in `list.sort(key=lambda x: x[1])` (line 146). -/
def specLT (s1 s2 : Specificity) : Bool :=
  s1.1 < s2.1 || (s1.1 == s2.1 &&
    (s1.2.1 < s2.2.1 || (s1.2.1 == s2.2.1 && s1.2.2 < s2.2.2)))

/-! ## Substring machinery for the selector filter and the pruner -/

/-- `chBegins needle hay` is true iff `needle` is an initial segment of
`hay` (used to express Python's `in` substring test). -/
def chBegins : List Char → List Char → Bool
  | [], _ => true
  | _ :: _, [] => false
  | a :: as, b :: bs => a == b && chBegins as bs

/-- `chHasSub needle hay` is Python's `needle in hay` substring test on
character lists. -/
def chHasSub (needle : List Char) : List Char → Bool
  | [] => needle.isEmpty
  | c :: rest => chBegins needle (c :: rest) || chHasSub needle rest

/-- Python's `sub in s` substring test on strings. -/
def strHasSub (needle hay : String) : Bool :=
  chHasSub needle.toList hay.toList

/-- Embeds the rule filter on line 134 of `apply_css_to_elements`:
a parsed rule is kept unless
`':' in selector_text and not (':nth-child' in selector_text or
':nth-of-type' in selector_text)`. -/
def keepRule (selectorText : String) : Bool :=
  !(strHasChar selectorText ':' &&
    !(strHasSub ":nth-child" selectorText ||
      strHasSub ":nth-of-type" selectorText))

/-- Scan every suffix of the selector text; a colon occurrence is an
offending one when the suffix starting at it begins with neither
`:nth-child` nor `:nth-of-type`. -/
def specClaimDropsGo : List Char → Bool
  | [] => false
  | c :: rest =>
      (c == ':' &&
        !(chBegins ":nth-child".toList (c :: rest) ||
          chBegins ":nth-of-type".toList (c :: rest))) || specClaimDropsGo rest

/-- Modelled from the spec (section 4.2 filtering clause), for comparison
with `keepRule`: the spec says a rule is dropped when its selector text
"contains a `:` not matching an allow-list of statically-resolvable
pseudo-classes (`:nth-child`, `:nth-of-type`)", i.e. some occurrence of
`:` does not start one of the two allowed pseudo-class names. -/
def specClaimDrops (selectorText : String) : Bool :=
  specClaimDropsGo selectorText.toList

/-! ## Data model of the cascade (css_layout_tools.py lines 112-232)

Style-attribute text and stylesheet declaration blocks are parsed by the
external `cssutils` library; the tree model therefore carries style
attributes in parsed form, a list of declarations
`(prop.name, prop.value, prop.important)` exactly as `cssutils` exposes
them, with `parseStyle`/serialization round-tripping assumed for the
simple `name: value[ !important]` strings the module itself writes. -/

/-- A parsed CSS declaration as handed over by the external parser:
`prop.name`, `prop.value`, and the declaration's own `prop.important`
flag. -/
structure SDecl where
  name : String
  value : String
  important : Bool
deriving DecidableEq

/-- A value of `final_styles_for_element[prop_name]`: the tuple
`(value, specificity, is_important)` built on lines 160, 183, 188, 190
and 213. -/
structure Entry where
  value : String
  spec : Specificity
  important : Bool
deriving DecidableEq

/-- The per-element Python dict `final_styles_for_element`, modelled as an
insertion-ordered association list (Python dicts preserve insertion order;
assigning to an existing key keeps its position). -/
abbrev Styles : Type := List (String × Entry)

/-- Dict lookup `final_styles_for_element.get(prop_name)`. -/
def lookupStyle : Styles → String → Option Entry
  | [], _ => none
  | (n, e) :: rest, p => if n == p then some e else lookupStyle rest p

/-- Dict assignment `final_styles_for_element[prop_name] = entry`:
overwrite in place when the key exists, append otherwise. -/
def setStyle : Styles → String → Entry → Styles
  | [], p, v => [(p, v)]
  | (n, e) :: rest, p, v =>
      if n == p then (p, v) :: rest else (n, e) :: setStyle rest p v

/-- Step 1 of the element loop (lines 154-162): seed the dict from the
element's own inline declarations, each with specificity `(1,0,0)` and
`important=True`. -/
def seedInline (ds : List SDecl) : Styles :=
  ds.foldl (fun st d => setStyle st d.name ⟨d.value, (1, 0, 0), true⟩) []

/-- The per-declaration merge of step 2 (lines 171-190).  Note line 174:
`is_important = False  # prop.important` — the candidate's importance is
hard-coded to `False`; the declaration's own `important` flag is ignored. -/
def applyRuleDecl (st : Styles) (ruleSpec : Specificity) (d : SDecl) : Styles :=
  let isImp : Bool := false
  match lookupStyle st d.name with
  | some e =>
      if isImp && !e.important then
        setStyle st d.name ⟨d.value, ruleSpec, isImp⟩
      else if !isImp && e.important then
        st
      else if compareSpecificity ruleSpec e.spec then
        setStyle st d.name ⟨d.value, ruleSpec, isImp⟩
      else
        st
  | none => setStyle st d.name ⟨d.value, ruleSpec, isImp⟩

/-- The `for prop in rule.style.getProperties()` loop (line 171). -/
def applyRule (st : Styles) (ruleSpec : Specificity) (ds : List SDecl) : Styles :=
  ds.foldl (fun s d => applyRuleDecl s ruleSpec d) st

/-- `INHERITABLE_PROPERTIES` (line 200). -/
def INHERITABLE_PROPERTIES : List String :=
  ["color", "font-family", "font-size", "font-weight", "line-height",
   "text-align", "visibility"]

/-- The inner `for p_prop in ...: if p_prop.name == prop_name: ...; break`
loop (lines 210-214): the first declaration with the given name. -/
def findDeclValue : List SDecl → String → Option String
  | [], _ => none
  | d :: ds, p => if d.name == p then some d.value else findDeclValue ds p

/-- The `while parent:` ancestor walk (lines 204-217), over the ancestor
chain nearest-first.  Each ancestor that defines the property assigns the
dict entry anew; the loop has no break, so it runs to the root and the
farthest defining ancestor's value is the one that remains. -/
def inheritLoop (p : String) :
    List (Option (List SDecl)) → Option String → Option String
  | [], acc => acc
  | a :: rest, acc =>
      match findDeclValue (a.getD []) p with
      | some v => inheritLoop p rest (some v)
      | none => inheritLoop p rest acc

/-- One iteration of the `for prop_name in INHERITABLE_PROPERTIES` loop
(lines 202-217): nothing happens when the property is already present;
otherwise the ancestor walk may install `(value, (0,0,0), False)`. -/
def inheritStep (anc : List (Option (List SDecl))) (st : Styles)
    (p : String) : Styles :=
  if (lookupStyle st p).isSome then st
  else
    match inheritLoop p anc none with
    | some v => setStyle st p ⟨v, (0, 0, 0), false⟩
    | none => st

/-- Step 3 of the element loop (lines 196-217): the inheritance pass. -/
def applyInheritance (anc : List (Option (List SDecl))) (st : Styles) :
    Styles :=
  INHERITABLE_PROPERTIES.foldl (inheritStep anc) st

/-- A style rule as parsed from a stylesheet by the external CSS parser:
its selector text, the token list the external tokenizer yields for that
text (`none` when tokenization raises, triggering the specificity
fallback), and its declaration block. -/
structure RawRule where
  selectorText : String
  tokens : Option (List Tok)
  decls : List SDecl
deriving DecidableEq

/-- A collected rule paired with its computed specificity — one element of
`all_css_rules_with_specificity` (line 139; the redundant third component,
the selector text, is recoverable from the rule). -/
abbrev CRule : Type := RawRule × Specificity

/-- Steps 1-3 of the element loop for one element: seed from inline
declarations, fold the sorted collected rules (applying those whose
selector matches the element per the external matcher `sel`), then run
inheritance over the ancestors' current style attributes
(nearest first). -/
def elemStyles (rules : List CRule) (sel : String → Nat → Bool) (eid : Nat)
    (inline : Option (List SDecl)) (anc : List (Option (List SDecl))) :
    Styles :=
  let seeded := seedInline (inline.getD [])
  let afterRules := rules.foldl
    (fun st r =>
      if sel r.1.selectorText eid then applyRule st r.2 r.1.decls else st)
    seeded
  applyInheritance anc afterRules

/-- Serialization of one dict item (line 225):
`f"{prop_name}: {prop_value}{' !important' if is_important else ''}"`. -/
def serializeEntry (p : String) (e : Entry) : String :=
  p ++ ": " ++ e.value ++ (if e.important then " !important" else "")

/-- Serialization of the whole dict (lines 222-226): `"; ".join(...)`. -/
def serializeStyles (st : Styles) : String :=
  String.intercalate "; " (st.map fun pe => serializeEntry pe.1 pe.2)

/-- The parsed form of the style attribute written back on lines 220-230:
`none` when the dict is empty (the attribute is removed or never added),
otherwise the declarations whose serialization line 226 writes.  Reparsing
that string with `cssutils` recovers exactly these declarations. -/
def toDecls (st : Styles) : List SDecl :=
  st.map fun pe => ⟨pe.1, pe.2.value, pe.2.important⟩

/-- The element's new style attribute after the loop body (lines 220-230). -/
def newStyleAttr (rules : List CRule) (sel : String → Nat → Bool) (eid : Nat)
    (inline : Option (List SDecl)) (anc : List (Option (List SDecl))) :
    Option (List SDecl) :=
  let st := elemStyles rules sel eid inline anc
  if st.isEmpty then none else some (toDecls st)

/-! ## The document tree and the full pipeline -/

/-- A node of the parsed document tree (owned by the external HTML parser,
BeautifulSoup).  `elem` carries an identity `eid` (the handle the external
selector matcher judges), its tag name, its parsed `style` attribute
(`none` when absent), and its children.  `styleTag` is a `<style>` element
whose CSS text the external CSS parser has already turned into a list of
raw style rules (a block `cssutils` fails to parse contributes the empty
list, per `_get_css_rules` lines 13-23).  `text` is a text node. -/
inductive Node where
  | elem (eid : Nat) (tag : String) (styleAttr : Option (List SDecl))
      (children : List Node)
  | styleTag (rules : List RawRule)
  | text (s : String)

mutual
/-- The rule-collection loop (lines 126-141) restricted to one node:
`soup.find_all('style')` visits style tags in document pre-order, and for
each of a tag's rules the line-134 filter and then the specificity
computation are applied. -/
def collectRules : Node → List CRule
  | .styleTag rs =>
      (rs.filter fun r => keepRule r.selectorText).map
        fun r => (r, getElementSpecificity r.tokens r.selectorText)
  | .elem _ _ _ cs => collectRulesList cs
  | .text _ => []
/-- Pre-order rule collection over a sibling list. -/
def collectRulesList : List Node → List CRule
  | [] => []
  | n :: ns => collectRules n ++ collectRulesList ns
end

mutual
/-- Style-tag removal below one non-style node (the `style_tag.extract()`
calls of line 142 as they affect an element's descendants). -/
def removeStyleTags : Node → Node
  | .elem i t s cs => .elem i t s (removeStyleTagsList cs)
  | .styleTag rs => .styleTag rs
  | .text s => .text s
/-- The `style_tag.extract()` calls (line 142) over a sibling list: every
`<style>` tag is removed, wherever it occurs.  `find_all` materializes its
result list before the loop runs, so every style tag of the original
document is extracted. -/
def removeStyleTagsList : List Node → List Node
  | [] => []
  | .styleTag _ :: ns => removeStyleTagsList ns
  | n :: ns => removeStyleTags n :: removeStyleTagsList ns
end

/-- Insertion of a collected rule into a list already sorted ascending by
specificity, after every rule of smaller-or-equal key — the stability
discipline of Python's `list.sort` (line 146). -/
def insertSorted (x : CRule) : List CRule → List CRule
  | [] => [x]
  | y :: ys =>
      if specLT x.2 y.2 then x :: y :: ys else y :: insertSorted x ys

/-- `all_css_rules_with_specificity.sort(key=lambda x: x[1])` (line 146):
a stable ascending sort by the specificity component. -/
def sortRules (rs : List CRule) : List CRule :=
  rs.foldl (fun acc x => insertSorted x acc) []

mutual
/-- The element loop (lines 149-230) as a top-down traversal.
`soup.find_all(True)` yields elements in document pre-order and the loop
mutates each element's `style` attribute in place, so when an element is
processed every ancestor already carries its updated attribute; `anc` is
that updated ancestor chain, nearest first.  Siblings and descendants do
not influence an element's resolution. -/
def processTree (rules : List CRule) (sel : String → Nat → Bool)
    (anc : List (Option (List SDecl))) : Node → Node
  | .elem eid tag st cs =>
      let st2 := newStyleAttr rules sel eid st anc
      .elem eid tag st2 (processTreeList rules sel (st2 :: anc) cs)
  | .styleTag rs => .styleTag rs
  | .text s => .text s
/-- The element loop over a sibling list. -/
def processTreeList (rules : List CRule) (sel : String → Nat → Bool)
    (anc : List (Option (List SDecl))) : List Node → List Node
  | [] => []
  | n :: ns =>
      processTree rules sel anc n :: processTreeList rules sel anc ns
end

/-- Embeds `apply_css_to_elements` (lines 112-232) on a parsed document,
given the external selector-matching oracle `sel` (the judgement
`element in soup.select(selector_text)` of line 170): collect and filter
the rules of every `<style>` tag with their specificities, extract the
style tags, stably sort the rules by specificity, then resolve every
element. -/
def applyCss (sel : String → Nat → Bool) (roots : List Node) : List Node :=
  let rules := sortRules (collectRulesList roots)
  processTreeList rules sel [] (removeStyleTagsList roots)

mutual
/-- No `styleTag` node anywhere in the tree. -/
def noStyleTagN : Node → Bool
  | .elem _ _ _ cs => noStyleTagL cs
  | .styleTag _ => false
  | .text _ => true
/-- No `styleTag` node anywhere below a sibling list. -/
def noStyleTagL : List Node → Bool
  | [] => true
  | n :: ns => noStyleTagN n && noStyleTagL ns
end

/-! ## The invisibility pruner (css_layout_tools.py lines 235-287)

`remove_invisible_elements` is a standalone entry point over arbitrary
HTML, so its tree keeps the `style` attribute as the raw string the
substring checks of lines 260 and 264 inspect; the `cssutils.parseStyle`
call of line 274 is the external parser, passed in as the `parse`
parameter. -/

/-- A node of the pruner's document tree: an element with its tag name,
optional raw `style` attribute string and children, or a text node. -/
inductive PNode where
  | elem (tag : String) (style : Option String) (children : List PNode)
  | text (s : String)

/-- Python's `str.lower()`, character-wise. -/
def lowerStr (s : String) : String :=
  String.mk (s.toList.map Char.toLower)

/-- `needle in style_attr.lower()` for a lowercase literal `needle`
(lines 260 and 264). -/
def styleHasMarker (needle : String) (styleAttr : String) : Bool :=
  strHasSub needle (lowerStr styleAttr)

/-- `INTRINSIC_SIZE_TAGS` (line 251). -/
def INTRINSIC_SIZE_TAGS : List String :=
  ["img", "input", "br", "hr", "video", "audio", "canvas", "iframe",
   "object", "embed"]

/-- The explicit-size scan of lines 274-280 over the parsed style
properties: some `width/height/min-width/min-height` declaration whose
stripped value is not in `['auto', '0', '0px', '0em', '0%']`. -/
def hasExplicitSize (props : List SDecl) : Bool :=
  props.any fun d =>
    (["width", "height", "min-width", "min-height"].contains d.name) &&
    !(["auto", "0", "0px", "0em", "0%"].contains d.value.trim)

mutual
/-- Embeds the deletion decisions of `remove_invisible_elements`
(lines 254-285) for one node.  `find_all(True)` materializes the full
element list before the loop, elements precede their descendants in it,
and `extract()` of a node already inside an extracted subtree does not
affect the output document; the net effect is this top-down filter, each
element judged on its own style, tag and original contents.  Returns
`none` when the element (with its subtree) is extracted. -/
def pruneNode (parse : String → List SDecl) : PNode → Option PNode
  | .text s => some (.text s)
  | .elem tag sty cs =>
      let s := (sty.getD "")
      if styleHasMarker "display: none" s then none
      else if styleHasMarker "visibility: hidden" s then none
      else if cs.isEmpty && !(INTRINSIC_SIZE_TAGS.contains tag) &&
          !hasExplicitSize (parse s) then none
      else some (.elem tag sty (pruneList parse cs))
/-- The pruner over a sibling list: extracted children disappear. -/
def pruneList (parse : String → List SDecl) : List PNode → List PNode
  | [] => []
  | n :: ns =>
      match pruneNode parse n with
      | none => pruneList parse ns
      | some m => m :: pruneList parse ns
end

mutual
/-- No element whose style attribute contains `display: none`
(case-insensitively) anywhere in the tree. -/
def noDisplayNoneN : PNode → Bool
  | .text _ => true
  | .elem _ sty cs =>
      !styleHasMarker "display: none" (sty.getD "") && noDisplayNoneL cs
/-- The same, below a sibling list. -/
def noDisplayNoneL : List PNode → Bool
  | [] => true
  | n :: ns => noDisplayNoneN n && noDisplayNoneL ns
end

/-! ## Basic lemmas about the dictionary and comparison operations -/

/-- `_compare_specificity` accepts equal triples (its final `return True`). -/
theorem compareSpecificity_refl (s : Specificity) :
    compareSpecificity s s = true := by
  simp [compareSpecificity]

/-- Python's strict tuple comparison is irreflexive, so the stable sort
keeps the relative order of equal keys. -/
theorem specLT_irrefl (s : Specificity) : specLT s s = false := by
  simp [specLT]

/-- Looking up a key right after assigning it yields the assigned entry. -/
theorem lookupStyle_setStyle_self (st : Styles) (p : String) (v : Entry) :
    lookupStyle (setStyle st p v) p = some v := by
  induction st with
  | nil => simp [setStyle, lookupStyle]
  | cons h t ih =>
      by_cases hp : h.1 == p
      · simp [setStyle, hp, lookupStyle]
      · simp [setStyle, hp, lookupStyle, ih]

/-- Assigning one key leaves every other key's lookup unchanged. -/
theorem lookupStyle_setStyle_other (st : Styles) (p q : String) (v : Entry)
    (hne : q ≠ p) :
    lookupStyle (setStyle st p v) q = lookupStyle st q := by
  have hpq : (p == q) = false := by
    simp only [beq_eq_false_iff_ne, ne_eq]
    exact fun h => hne h.symm
  induction st with
  | nil => simp [setStyle, lookupStyle, hpq]
  | cons h t ih =>
      by_cases hp : h.1 = p
      · subst hp
        simp [setStyle, lookupStyle, hpq]
      · simp [setStyle, lookupStyle, beq_iff_eq, hp, ih]

/-! ## Claim C1: the specificity calculator -/

/-- C1 counterexample: when tokenization succeeds but produces no
recognizable selector tokens (here: an empty token list for `"#a"`), the
calculator returns the zero counts `(0,0,0)` and does not fall back to the
syntactic heuristic, which would give `(1,0,0)`; the claim's failure
policy ("tokenization fails **or produces no recognizable selector
tokens**") is therefore false for the second disjunct. -/
theorem c1_counterexample :
    getElementSpecificity (some []) "#a" = (0, 0, 0) ∧
    specFallback "#a" = (1, 0, 0) ∧
    getElementSpecificity (some []) "#a" ≠ specFallback "#a" := by
  refine ⟨by decide, by decide, by decide⟩

/-- C1 amended: the calculator returns `(1,0,0)`, `(0,1,0)`, `(0,0,1)` and
`(1,1,0)` for `#a`, `.b`, `div` and `#a.b` when the external tokenizer
yields the corresponding selector tokens, giving the strict lexicographic
ordering `calc "#a" > calc ".b" > calc "div"`; the syntactic heuristic on
the raw selector text is used exactly when tokenization fails (raises) —
a successful tokenization with no recognizable selector tokens yields the
plain token counts (possibly `(0,0,0)`), not the heuristic. -/
theorem c1_amended :
    getElementSpecificity (some [.idSel]) "#a" = (1, 0, 0) ∧
    getElementSpecificity (some [.classSel]) ".b" = (0, 1, 0) ∧
    getElementSpecificity (some [.typeSel]) "div" = (0, 0, 1) ∧
    getElementSpecificity (some [.idSel, .classSel]) "#a.b" = (1, 1, 0) ∧
    specLT (getElementSpecificity (some [.classSel]) ".b")
      (getElementSpecificity (some [.idSel]) "#a") = true ∧
    specLT (getElementSpecificity (some [.typeSel]) "div")
      (getElementSpecificity (some [.classSel]) ".b") = true ∧
    (∀ text : String, getElementSpecificity none text = specFallback text) ∧
    getElementSpecificity (some [.other]) "#a" = (0, 0, 0) := by
  refine ⟨by decide, by decide, by decide, by decide, by decide, by decide,
    fun _ => rfl, by decide⟩

/-! ## Claim C4: the rule filter -/

/-- A rule with both a disallowed and an allowed pseudo-class in its
selector, used to separate the code's substring test from the spec's
per-occurrence reading. -/
def c4rule : RawRule :=
  ⟨":hover:nth-child(1)", some [.pseudoClass "hover", .pseudoClass "nth-child"],
   [⟨"color", "red", false⟩]⟩

/-- C4 counterexample: the selector `:hover:nth-child(1)` contains a `:`
(the one of `:hover`) that matches neither allow-listed pseudo-class, so
under the claim the rule is dropped; the code's test only asks whether the
whole selector text contains `:nth-child` or `:nth-of-type` as a
substring, so it collects the rule — a state-dependent `:hover` rule
enters the cascade. -/
theorem c4_counterexample :
    specClaimDrops c4rule.selectorText = true ∧
    collectRules (.styleTag [c4rule]) = [(c4rule, (0, 2, 0))] := by
  refine ⟨by decide, rfl⟩

/-- C4 amended: the collector drops a rule exactly when its selector text
contains a `:` and contains neither the substring `:nth-child` nor the
substring `:nth-of-type`; a selector containing a state-dependent
pseudo-class is still collected whenever an allow-listed name occurs
anywhere in the same selector text. -/
theorem c4_amended (r : RawRule) :
    collectRules (.styleTag [r]) = [] ↔
      (strHasChar r.selectorText ':' = true ∧
       strHasSub ":nth-child" r.selectorText = false ∧
       strHasSub ":nth-of-type" r.selectorText = false) := by
  have hcoll : collectRules (.styleTag [r]) =
      if keepRule r.selectorText then
        [(r, getElementSpecificity r.tokens r.selectorText)]
      else [] := by
    cases hk : keepRule r.selectorText <;> simp [collectRules, List.filter, hk]
  rw [hcoll, keepRule]
  cases h1 : strHasChar r.selectorText ':' <;>
    cases h2 : strHasSub ":nth-child" r.selectorText <;>
    cases h3 : strHasSub ":nth-of-type" r.selectorText <;> simp

/-- C4 amended witness: the theorem applied to the `:hover` rule, whose
selector contains a colon and neither allowed substring, so it is
dropped. -/
theorem c4_amended_witness :
    collectRules (.styleTag [(⟨":hover", some [.pseudoClass "hover"], []⟩ : RawRule)]) = [] :=
  (c4_amended ⟨":hover", some [.pseudoClass "hover"], []⟩).mpr
    ⟨by decide, by decide, by decide⟩

/-! ## Claim C3: the `!important` flag of stylesheet declarations -/

/-- C3 counterexample: a stylesheet declaration marked `!important`
(important flag `true` on the incoming declaration) does **not** replace an
existing non-important winning entry of higher specificity — the merge
hard-codes the candidate's importance to `False` (line 174), so the
candidate loses the specificity comparison and the entry is kept
unchanged. -/
theorem c3_counterexample :
    applyRuleDecl [("color", ⟨"red", (1, 0, 0), false⟩)] (0, 0, 1)
        ⟨"color", "green", true⟩ =
      [("color", ⟨"red", (1, 0, 0), false⟩)] := by
  decide

/-- Shared analysis of one merge step: the candidate is stored with
`important = false` whenever it is stored at all, and an existing
important entry is never replaced. -/
theorem applyRuleDecl_ignores_important (st : Styles) (sp : Specificity)
    (d : SDecl) :
    (applyRuleDecl st sp d = st ∨
      lookupStyle (applyRuleDecl st sp d) d.name = some ⟨d.value, sp, false⟩) ∧
    (∀ e : Entry, lookupStyle st d.name = some e → e.important = true →
      applyRuleDecl st sp d = st) := by
  constructor
  · rw [applyRuleDecl]
    cases hl : lookupStyle st d.name with
    | none =>
        simp only []
        exact Or.inr (lookupStyle_setStyle_self st d.name _)
    | some e =>
        simp only [Bool.false_and, Bool.not_false, Bool.true_and,
          Bool.false_eq_true, if_false]
        by_cases hi : e.important
        · simp only [hi, if_true]
          exact Or.inl (by trivial)
        · simp only [Bool.not_eq_true] at hi
          simp only [hi, Bool.false_eq_true, if_false]
          by_cases hc : compareSpecificity sp e.spec
          · simp only [hc, if_true]
            exact Or.inr (lookupStyle_setStyle_self st d.name _)
          · simp only [Bool.not_eq_true] at hc
            simp only [hc, Bool.false_eq_true, if_false]
            exact Or.inl (by trivial)
  · intro e hl hi
    rw [applyRuleDecl, hl]
    simp [hi]

/-- C3 amended: the candidate entry for a stylesheet declaration always
carries `important = false` — the declaration's own `!important` flag is
ignored (line 174 reads `is_important = False  # prop.important`).
Consequently a merge step either leaves the map unchanged or installs the
candidate with `important = false`, and an existing important entry (only
inline seeds are important) is never replaced by any stylesheet
declaration. -/
theorem c3_amended (st : Styles) (sp : Specificity) (d : SDecl) :
    (applyRuleDecl st sp d = st ∨
      lookupStyle (applyRuleDecl st sp d) d.name = some ⟨d.value, sp, false⟩) ∧
    (∀ e : Entry, lookupStyle st d.name = some e → e.important = true →
      applyRuleDecl st sp d = st) :=
  applyRuleDecl_ignores_important st sp d

/-- C3 amended witness: the amended theorem at the counterexample's input:
the merge leaves the map unchanged or records the green value as
non-important, and the existing important entry case is concrete. -/
theorem c3_amended_witness :
    (applyRuleDecl [("color", ⟨"red", (1, 0, 0), false⟩)] (0, 0, 1)
        ⟨"color", "green", true⟩ = [("color", ⟨"red", (1, 0, 0), false⟩)] ∨
      lookupStyle (applyRuleDecl [("color", ⟨"red", (1, 0, 0), false⟩)] (0, 0, 1)
        ⟨"color", "green", true⟩) "color" = some ⟨"green", (0, 0, 1), false⟩) ∧
    (∀ e : Entry,
      lookupStyle [("color", ⟨"red", (1, 0, 0), false⟩)] "color" = some e →
      e.important = true →
      applyRuleDecl [("color", ⟨"red", (1, 0, 0), false⟩)] (0, 0, 1)
        ⟨"color", "green", true⟩ = [("color", ⟨"red", (1, 0, 0), false⟩)]) :=
  c3_amended [("color", ⟨"red", (1, 0, 0), false⟩)] (0, 0, 1)
    ⟨"color", "green", true⟩

/-! ## Claim C2: the inheritance propagator -/

/-- The selector oracle for the C2 document: no stylesheet rules exist, so
it never matches. -/
def c2sel : String → Nat → Bool := fun _ _ => false

/-- The C2 failing input: a grandparent with `style="color: blue"`, a
parent with `style="color: red"`, and a child with no own `color`. -/
def c2doc : Node :=
  .elem 0 "div" (some [⟨"color", "blue", false⟩])
    [.elem 1 "div" (some [⟨"color", "red", false⟩])
      [.elem 2 "span" none []]]

/-- C2 code behavior at the failing input: the child's resolved `color` is
`blue` — the value of the **farthest** ancestor that defines the property,
because the `while parent:` walk (lines 204-217) has no break and each
farther ancestor overwrites the entry.  The claim (and spec section 4.4)
says the nearest ancestor (`red`) supplies the value, which the second
conjunct shows directly for the ancestor walk: with ancestors
nearest-first `[red, blue]`, the walk returns `blue`. -/
theorem c2_code_behavior :
    applyCss c2sel [c2doc] =
      [.elem 0 "div" (some [⟨"color", "blue", true⟩])
        [.elem 1 "div" (some [⟨"color", "red", true⟩])
          [.elem 2 "span" (some [⟨"color", "blue", false⟩]) []]]] ∧
    inheritLoop "color"
      [some [⟨"color", "red", true⟩], some [⟨"color", "blue", true⟩]]
      none = some "blue" :=
  ⟨rfl, rfl⟩

/-! ## Claim C7: empty `img` elements and the pruner -/

/-- C7 counterexample: an empty `img` whose style attribute contains
`display: none` **is** deleted by the pruner — the display/visibility
checks of lines 259-267 run before the intrinsic-size exemption, which
only guards the emptiness check. -/
theorem c7_counterexample :
    pruneNode (fun _ => []) (.elem "img" (some "display: none") []) = none :=
  rfl

/-- C7 amended: an empty `img` is exempt from the emptiness-based deletion
(`img` is in the intrinsic-size set), so it is kept whenever its style
attribute contains neither `display: none` nor `visibility: hidden`
(case-insensitively); it is deleted when one of those markers is
present. -/
theorem c7_amended (parse : String → List SDecl) (sty : Option String)
    (cs : List PNode)
    (h1 : styleHasMarker "display: none" (sty.getD "") = false)
    (h2 : styleHasMarker "visibility: hidden" (sty.getD "") = false) :
    pruneNode parse (.elem "img" sty cs) =
      some (.elem "img" sty (pruneList parse cs)) := by
  rw [pruneNode]
  simp only [h1, h2, Bool.false_eq_true, if_false]
  have himg : INTRINSIC_SIZE_TAGS.contains "img" = true := by decide
  rw [himg]
  simp

/-- C7 amended witness: an empty `img` with an explicit size style and no
hiding marker is kept unchanged. -/
theorem c7_amended_witness :
    pruneNode (fun _ => []) (.elem "img" (some "width: 50px") []) =
      some (.elem "img" (some "width: 50px") (pruneList (fun _ => []) [])) :=
  c7_amended (fun _ => []) (some "width: 50px") [] (by decide) (by decide)

/-! ## Claim C8: every `display: none` element is removed -/

mutual
/-- Every element the pruner keeps is free of the `display: none` marker,
and so is everything below it. -/
theorem pruneNode_noDisplay (parse : String → List SDecl) :
    ∀ (n : PNode) (m : PNode), pruneNode parse n = some m →
      noDisplayNoneN m = true
  | .text s, m, h => by
      rw [pruneNode] at h
      cases h
      rfl
  | .elem tag sty cs, m, h => by
      rw [pruneNode] at h
      by_cases h1 : styleHasMarker "display: none" (sty.getD "") = true
      · rw [h1] at h
        simp at h
      · have h1f : styleHasMarker "display: none" (sty.getD "") = false :=
          Bool.not_eq_true _ ▸ Bool.of_not_eq_true h1
        rw [h1f] at h
        simp only [Bool.false_eq_true, if_false] at h
        by_cases h2 : styleHasMarker "visibility: hidden" (sty.getD "") = true
        · rw [h2] at h
          simp at h
        · have h2f : styleHasMarker "visibility: hidden" (sty.getD "") = false :=
            Bool.of_not_eq_true h2
          rw [h2f] at h
          simp only [Bool.false_eq_true, if_false] at h
          by_cases h3 : (cs.isEmpty && !(INTRINSIC_SIZE_TAGS.contains tag) &&
              !hasExplicitSize (parse (sty.getD ""))) = true
          · rw [h3] at h
            simp at h
          · rw [Bool.of_not_eq_true h3] at h
            simp only [Bool.false_eq_true, if_false, Option.some.injEq] at h
            subst h
            rw [noDisplayNoneN, h1f]
            simp only [Bool.not_false, Bool.true_and]
            exact pruneList_noDisplay parse cs
/-- Every pruned sibling list is free of `display: none` elements. -/
theorem pruneList_noDisplay (parse : String → List SDecl) :
    ∀ ns : List PNode, noDisplayNoneL (pruneList parse ns) = true
  | [] => rfl
  | n :: ns => by
      rw [pruneList]
      cases hp : pruneNode parse n with
      | none => exact pruneList_noDisplay parse ns
      | some m =>
          rw [noDisplayNoneL, pruneNode_noDisplay parse n m hp,
            pruneList_noDisplay parse ns]
          rfl
end

/-- C8: for every parse oracle and every input forest, the pruner's output
contains no element whose style attribute contains `display: none`
(case-insensitively): every such element of the input was removed together
with its subtree, none is skipped however many deletions occur, because
the traversal materializes the element list before extracting. -/
theorem c8_display_none_all_removed (parse : String → List SDecl)
    (ns : List PNode) : noDisplayNoneL (pruneList parse ns) = true :=
  pruneList_noDisplay parse ns

/-! ## Claim C9: no style block survives `apply_css_to_elements` -/

/-- Style-tag removal leaves no style tag anywhere in the forest. -/
theorem removeStyleTagsList_clean :
    ∀ ns : List Node, noStyleTagL (removeStyleTagsList ns) = true
  | [] => rfl
  | .elem i t s cs :: ns => by
      simp only [removeStyleTagsList, removeStyleTags, noStyleTagL, noStyleTagN,
        removeStyleTagsList_clean cs, removeStyleTagsList_clean ns]
      rfl
  | .styleTag rs :: ns => by
      simp only [removeStyleTagsList]
      exact removeStyleTagsList_clean ns
  | .text s :: ns => by
      simp only [removeStyleTagsList, removeStyleTags, noStyleTagL, noStyleTagN,
        removeStyleTagsList_clean ns]
      rfl

mutual
/-- The element loop preserves absence of style tags in a node. -/
theorem processTree_clean (rules : List CRule) (sel : String → Nat → Bool) :
    ∀ (anc : List (Option (List SDecl))) (n : Node),
      noStyleTagN n = true → noStyleTagN (processTree rules sel anc n) = true
  | anc, .elem eid tag st cs, h => by
      rw [processTree, noStyleTagN]
      rw [noStyleTagN] at h
      exact processTreeList_clean rules sel _ cs h
  | anc, .styleTag rs, h => h
  | anc, .text s, _ => rfl
/-- The element loop preserves absence of style tags in a sibling list. -/
theorem processTreeList_clean (rules : List CRule) (sel : String → Nat → Bool) :
    ∀ (anc : List (Option (List SDecl))) (ns : List Node),
      noStyleTagL ns = true → noStyleTagL (processTreeList rules sel anc ns) = true
  | anc, [], _ => rfl
  | anc, n :: ns, h => by
      rw [noStyleTagL] at h
      rcases Bool.and_eq_true_iff.mp h with ⟨h1, h2⟩
      rw [processTreeList, noStyleTagL,
        processTree_clean rules sel anc n h1,
        processTreeList_clean rules sel anc ns h2]
      rfl
end

/-- C9: after `apply_css_to_elements` runs, no style-definition
(`<style>`) block remains anywhere in the output document, for every
selector oracle and every input document. -/
theorem c9_no_style_tag_in_output (sel : String → Nat → Bool)
    (roots : List Node) : noStyleTagL (applyCss sel roots) = true :=
  processTreeList_clean _ sel [] (removeStyleTagsList roots)
    (removeStyleTagsList_clean roots)

end Forumlib

namespace Forumlib

/-! ## Claim C10: inline declarations come out `!important` -/

/-- An entry present in the dict is preserved whenever its key is not the
assigned one. -/
theorem lookupStyle_preserved_of_ne (st : Styles) (p q : String) (v : Entry)
    (e : Entry) (hl : lookupStyle st q = some e) (hne : q ≠ p) :
    lookupStyle (setStyle st p v) q = some e := by
  rw [lookupStyle_setStyle_other st p q v hne]
  exact hl

/-- An important entry survives one merge step: the candidate is always
non-important (line 174), so when the names collide the
`existing_important` branch keeps the map unchanged, and a different name
cannot touch the entry. -/
theorem applyRuleDecl_keeps_important (st : Styles) (sp : Specificity)
    (d : SDecl) (q : String) (e : Entry) (hl : lookupStyle st q = some e)
    (hi : e.important = true) :
    lookupStyle (applyRuleDecl st sp d) q = some e := by
  by_cases hq : q = d.name
  · subst hq
    rw [(applyRuleDecl_ignores_important st sp d).2 e hl hi]
    exact hl
  · rw [applyRuleDecl]
    cases hld : lookupStyle st d.name with
    | none =>
        simp only []
        exact lookupStyle_preserved_of_ne st d.name q _ e hl hq
    | some e2 =>
        simp only [Bool.false_and, Bool.false_eq_true, if_false,
          Bool.not_false, Bool.true_and]
        by_cases hi2 : e2.important
        · simp only [hi2, if_true]
          exact hl
        · simp only [Bool.of_not_eq_true hi2, Bool.false_eq_true, if_false]
          by_cases hc : compareSpecificity sp e2.spec
          · simp only [hc, if_true]
            exact lookupStyle_preserved_of_ne st d.name q _ e hl hq
          · simp only [Bool.of_not_eq_true hc, Bool.false_eq_true, if_false]
            exact hl

/-- An important entry survives a whole rule's declaration list. -/
theorem applyRule_keeps_important (ds : List SDecl) (st : Styles)
    (sp : Specificity) (q : String) (e : Entry)
    (hl : lookupStyle st q = some e) (hi : e.important = true) :
    lookupStyle (applyRule st sp ds) q = some e := by
  induction ds generalizing st with
  | nil => exact hl
  | cons d ds ih =>
      rw [applyRule] at *
      simp only [List.foldl] at *
      exact ih _ (applyRuleDecl_keeps_important st sp d q e hl hi)

/-- An important entry survives the whole rule fold of step 2. -/
theorem rulesFold_keeps_important (rules : List CRule)
    (sel : String → Nat → Bool) (eid : Nat) (st : Styles) (q : String)
    (e : Entry) (hl : lookupStyle st q = some e) (hi : e.important = true) :
    lookupStyle
      (rules.foldl
        (fun st r =>
          if sel r.1.selectorText eid then applyRule st r.2 r.1.decls else st)
        st) q = some e := by
  induction rules generalizing st with
  | nil => exact hl
  | cons r rs ih =>
      simp only [List.foldl]
      by_cases hm : sel r.1.selectorText eid
      · simp only [hm, if_true]
        exact ih _ (applyRule_keeps_important r.1.decls st r.2 q e hl hi)
      · simp only [hm, if_false]
        exact ih _ hl

/-- Any present entry (important or not) survives one inheritance step:
a property already present is skipped, and another property's assignment
cannot touch this key. -/
theorem inheritStep_keeps_present (anc : List (Option (List SDecl)))
    (st : Styles) (p q : String) (e : Entry)
    (hl : lookupStyle st q = some e) :
    lookupStyle (inheritStep anc st p) q = some e := by
  rw [inheritStep]
  by_cases hq : q = p
  · subst hq
    simp only [hl, Option.isSome_some, if_true]
  · by_cases hs : (lookupStyle st p).isSome
    · simp only [hs, if_true]
      exact hl
    · simp only [hs, Bool.false_eq_true, if_false]
      cases inheritLoop p anc none with
      | none => exact hl
      | some v => exact lookupStyle_preserved_of_ne st p q _ e hl hq

/-- Any present entry survives the whole inheritance pass. -/
theorem applyInheritance_keeps_present (anc : List (Option (List SDecl)))
    (st : Styles) (q : String) (e : Entry)
    (hl : lookupStyle st q = some e) :
    lookupStyle (applyInheritance anc st) q = some e := by
  rw [applyInheritance]
  generalize INHERITABLE_PROPERTIES = ps
  induction ps generalizing st with
  | nil => exact hl
  | cons p ps ih =>
      simp only [List.foldl]
      exact ih _ (inheritStep_keeps_present anc st p q e hl)

/-- The seed fold keeps every entry important and makes every listed name
present, starting from any all-important map. -/
theorem seedFold_important (ds : List SDecl) :
    ∀ st : Styles,
      (∀ p e, lookupStyle st p = some e → e.important = true) →
      ∀ q : String,
        ((∃ d ∈ ds, d.name = q) ∨ ∃ e, lookupStyle st q = some e) →
        ∃ e : Entry,
          lookupStyle
            (ds.foldl (fun st d => setStyle st d.name ⟨d.value, (1, 0, 0), true⟩) st)
            q = some e ∧ e.important = true := by
  induction ds with
  | nil =>
      intro st hst q hq
      rcases hq with ⟨d, hd, _⟩ | ⟨e, he⟩
      · simp at hd
      · exact ⟨e, he, hst _ e he⟩
  | cons d0 ds ih =>
      intro st hst q hq
      simp only [List.foldl]
      apply ih
      · intro p e he
        by_cases hp : p = d0.name
        · subst hp
          rw [lookupStyle_setStyle_self] at he
          cases he
          rfl
        · rw [lookupStyle_setStyle_other st d0.name p _ hp] at he
          exact hst p e he
      · rcases hq with ⟨d, hd, hdq⟩ | ⟨e, he⟩
        · rcases List.mem_cons.mp hd with h0 | htail
          · subst h0
            subst hdq
            exact Or.inr ⟨_, lookupStyle_setStyle_self st d.name _⟩
          · exact Or.inl ⟨d, htail, hdq⟩
        · by_cases hp : q = d0.name
          · subst hp
            exact Or.inr ⟨_, lookupStyle_setStyle_self st d0.name _⟩
          · exact Or.inr ⟨e, lookupStyle_preserved_of_ne st d0.name q _ e he hp⟩

/-- Seeding records every inline declaration's name with an important
entry. -/
theorem seedInline_mem_important (ds : List SDecl) (d : SDecl)
    (hmem : d ∈ ds) :
    ∃ e : Entry, lookupStyle (seedInline ds) d.name = some e ∧
      e.important = true := by
  rw [seedInline]
  exact seedFold_important ds [] (fun p e he => by simp [lookupStyle] at he)
    d.name (Or.inl ⟨d, hmem, rfl⟩)

/-- C10: every property originating from an element's own inline style
attribute ends up in the resolved map with `important = true` — and is
therefore serialized with a trailing ` !important` — even when the
original inline declaration carried no `!important` marker; concretely, an
element with `style="color:blue"` is serialized back as
`"color: blue !important"`. -/
theorem c10_inline_promoted_important :
    (∀ (rules : List CRule) (sel : String → Nat → Bool) (eid : Nat)
        (ds : List SDecl) (anc : List (Option (List SDecl))) (d : SDecl),
        d ∈ ds →
        ∃ e : Entry,
          lookupStyle (elemStyles rules sel eid (some ds) anc) d.name = some e ∧
            e.important = true) ∧
    serializeStyles
        (elemStyles [] (fun _ _ => false) 0 (some [⟨"color", "blue", false⟩]) []) =
      "color: blue !important" := by
  constructor
  · intro rules sel eid ds anc d hmem
    obtain ⟨e, he, hi⟩ := seedInline_mem_important ds d hmem
    refine ⟨e, ?_, hi⟩
    rw [elemStyles]
    exact applyInheritance_keeps_present anc _ d.name e
      (rulesFold_keeps_important rules sel eid _ d.name e he hi)
  · decide

/-- C10 witness: the general statement applied at the concrete
single-declaration element. -/
theorem c10_inline_promoted_important_witness :
    ∃ e : Entry,
      lookupStyle
        (elemStyles [] (fun _ _ => false) 0
          (some [⟨"color", "blue", false⟩]) [])
        "color" = some e ∧ e.important = true :=
  c10_inline_promoted_important.1 [] (fun _ _ => false) 0
    [⟨"color", "blue", false⟩] [] ⟨"color", "blue", false⟩ (by decide)

end Forumlib

namespace Forumlib

/-! ## Claim C5: source-order tie-break at equal specificity -/

/-- One inheritance step with no ancestors does nothing. -/
theorem inheritStep_nil (st : Styles) (p : String) : inheritStep [] st p = st := by
  rw [inheritStep]
  cases h : (lookupStyle st p).isSome
  · simp [h, inheritLoop]
  · simp [h]

/-- The inheritance pass with no ancestors does nothing. -/
theorem applyInheritance_nil (st : Styles) : applyInheritance [] st = st := by
  rw [applyInheritance]
  generalize INHERITABLE_PROPERTIES = ps
  induction ps with
  | nil => rfl
  | cons p ps ih =>
      simp only [List.foldl, inheritStep_nil]
      exact ih

/-- C5: for an element matched by two collected non-important rules of
equal specificity declaring the same property, the rule appearing later in
document order supplies the final value — the stable sort preserves the
rules' relative order, and the merge replaces the existing entry because
`_compare_specificity` returns `True` on equal triples. -/
theorem c5_later_rule_wins (s1 s2 : String) (tk1 tk2 : Option (List Tok))
    (p v1 v2 : String) (sel : String → Nat → Bool)
    (hk1 : keepRule s1 = true) (hk2 : keepRule s2 = true)
    (hm1 : sel s1 0 = true) (hm2 : sel s2 0 = true)
    (hspec : getElementSpecificity tk1 s1 = getElementSpecificity tk2 s2) :
    applyCss sel
      [.styleTag [⟨s1, tk1, [⟨p, v1, false⟩]⟩, ⟨s2, tk2, [⟨p, v2, false⟩]⟩],
       .elem 0 "div" none []] =
      [.elem 0 "div" (some [⟨p, v2, false⟩]) []] := by
  have hcoll : collectRulesList
      [Node.styleTag [⟨s1, tk1, [⟨p, v1, false⟩]⟩, ⟨s2, tk2, [⟨p, v2, false⟩]⟩],
       Node.elem 0 "div" none []] =
      [(⟨s1, tk1, [⟨p, v1, false⟩]⟩, getElementSpecificity tk1 s1),
       (⟨s2, tk2, [⟨p, v2, false⟩]⟩, getElementSpecificity tk2 s2)] := by
    simp [collectRulesList, collectRules, List.filter, hk1, hk2]
  have hsort : sortRules
      [((⟨s1, tk1, [⟨p, v1, false⟩]⟩ : RawRule), getElementSpecificity tk1 s1),
       (⟨s2, tk2, [⟨p, v2, false⟩]⟩, getElementSpecificity tk2 s2)] =
      [(⟨s1, tk1, [⟨p, v1, false⟩]⟩, getElementSpecificity tk1 s1),
       (⟨s2, tk2, [⟨p, v2, false⟩]⟩, getElementSpecificity tk2 s2)] := by
    rw [sortRules]
    simp only [List.foldl, insertSorted]
    rw [hspec, specLT_irrefl]
    simp [insertSorted]
  rw [applyCss, hcoll, hsort]
  have hrem : removeStyleTagsList
      [Node.styleTag [⟨s1, tk1, [⟨p, v1, false⟩]⟩, ⟨s2, tk2, [⟨p, v2, false⟩]⟩],
       Node.elem 0 "div" none []] = [Node.elem 0 "div" none []] := by
    simp [removeStyleTagsList, removeStyleTags]
  rw [hrem]
  rw [processTreeList, processTree, processTreeList]
  have hstyles : elemStyles
      [((⟨s1, tk1, [⟨p, v1, false⟩]⟩ : RawRule), getElementSpecificity tk1 s1),
       (⟨s2, tk2, [⟨p, v2, false⟩]⟩, getElementSpecificity tk2 s2)]
      sel 0 none [] = [(p, ⟨v2, getElementSpecificity tk2 s2, false⟩)] := by
    rw [elemStyles]
    simp only [Option.getD, seedInline, List.foldl, hm1, hm2, if_true]
    rw [applyRule, applyRule]
    simp only [List.foldl, applyRuleDecl, lookupStyle, setStyle]
    simp only [beq_self_eq_true, if_true, Bool.false_and, Bool.not_false,
      Bool.true_and, Bool.false_eq_true, if_false]
    rw [hspec, compareSpecificity_refl]
    simp only [if_true, setStyle, beq_self_eq_true]
    exact applyInheritance_nil _
  rw [newStyleAttr, hstyles]
  simp [toDecls, processTreeList]

/-- C5 witness: `.x{color:red}` collected before `.x{color:green}` on a
matching element resolves `color` to `green`. -/
theorem c5_later_rule_wins_witness :
    applyCss (fun _ _ => true)
      [.styleTag [⟨".x", some [.classSel], [⟨"color", "red", false⟩]⟩,
                  ⟨".x", some [.classSel], [⟨"color", "green", false⟩]⟩],
       .elem 0 "div" none []] =
      [.elem 0 "div" (some [⟨"color", "green", false⟩]) []] :=
  c5_later_rule_wins ".x" ".x" (some [.classSel]) (some [.classSel])
    "color" "red" "green" (fun _ _ => true)
    (by decide) (by decide) rfl rfl rfl

end Forumlib

namespace Forumlib

/-! ## Claim C6: idempotence of the resolver

The resolver is not the identity on its own output: re-running it promotes
every declaration to `!important` (inline seeding marks everything
important and serialization then writes the marker).  The definitions
below describe that promotion and the class of trees on which the second
and later runs coincide. -/

/-- Promotion of one declaration: same property and value, `!important`. -/
def promoteDecl (d : SDecl) : SDecl := ⟨d.name, d.value, true⟩

/-- Promotion of a style attribute. -/
def promoteAttr : Option (List SDecl) → Option (List SDecl)
  | none => none
  | some ds => some (ds.map promoteDecl)

mutual
/-- Promotion of every style attribute in a node. -/
def promoteTreeN : Node → Node
  | .elem i t s cs => .elem i t (promoteAttr s) (promoteTreeL cs)
  | .styleTag rs => .styleTag rs
  | .text s => .text s
/-- Promotion of every style attribute in a forest. -/
def promoteTreeL : List Node → List Node
  | [] => []
  | n :: ns => promoteTreeN n :: promoteTreeL ns
end

/-- No two declarations of the list share a property name (true of every
serialized dict, whose keys are unique). -/
def distinctNames : List SDecl → Bool
  | [] => true
  | d :: ds => (ds.all fun d2 => !(d2.name == d.name)) && distinctNames ds

/-- A well-formed resolved style attribute: absent, or a non-empty
declaration list without duplicate names (exactly what serialization of a
non-empty dict produces). -/
def goodAttr : Option (List SDecl) → Bool
  | none => true
  | some ds => !ds.isEmpty && distinctNames ds

/-- Whether a style attribute defines a property. -/
def declaresAttr (a : Option (List SDecl)) (p : String) : Bool :=
  (findDeclValue (a.getD []) p).isSome

/-- Whether any ancestor's style attribute defines a property. -/
def ancDefines (p : String) (anc : List (Option (List SDecl))) : Bool :=
  anc.any fun a => declaresAttr a p

mutual
/-- Every style attribute in the node is well-formed. -/
def goodN : Node → Bool
  | .elem _ _ s cs => goodAttr s && goodL cs
  | .styleTag _ => true
  | .text _ => true
/-- Every style attribute in the forest is well-formed. -/
def goodL : List Node → Bool
  | [] => true
  | n :: ns => goodN n && goodL ns
end

mutual
/-- Inheritance-closure of a node under an ancestor attribute chain: every
inheritable property defined by some ancestor is defined on the element
itself (true of every output of a resolution run, whose inheritance pass
fills exactly these properties in). -/
def closedN (anc : List (Option (List SDecl))) : Node → Bool
  | .elem _ _ s cs =>
      (INHERITABLE_PROPERTIES.all fun p => !ancDefines p anc || declaresAttr s p)
        && closedL (s :: anc) cs
  | .styleTag _ => true
  | .text _ => true
/-- Inheritance-closure of a forest. -/
def closedL (anc : List (Option (List SDecl))) : List Node → Bool
  | [] => true
  | n :: ns => closedN anc n && closedL anc ns
end

/-- The selector oracle of the C6 counterexample. -/
def c6sel : String → Nat → Bool := fun s i => s == ".x" && i == 1

/-- The C6 document: a `<style>` block with one class rule and a matching
element. -/
def c6doc : Node :=
  .elem 1 "p" none
    [.styleTag [⟨".x", some [.classSel], [⟨"color", "red", false⟩]⟩]]

/-- The root element's style attribute of a forest, used to exhibit that
two resolved trees differ. -/
def headStyle : List Node → Option (List SDecl)
  | .elem _ _ s _ :: _ => s
  | _ => none

/-- C6 counterexample: resolving the document once yields an element with
`style="color: red"`; running the resolver a second time on that output
(whose stylesheet is gone) rewrites it to `color: red !important` — the
second run is not the identity. -/
theorem c6_counterexample :
    applyCss c6sel (applyCss c6sel [c6doc]) ≠ applyCss c6sel [c6doc] :=
  fun h => absurd (congrArg headStyle h) (by decide)

end Forumlib

namespace Forumlib

/-- Promotion keeps names and values, so the first-match scan is
unchanged. -/
theorem findDeclValue_map_promote (ds : List SDecl) (p : String) :
    findDeclValue (ds.map promoteDecl) p = findDeclValue ds p := by
  induction ds with
  | nil => rfl
  | cons d ds ih =>
      simp only [List.map, findDeclValue, promoteDecl]
      by_cases h : (d.name == p) = true
      · simp [h]
      · simp [h, ih]

/-- Promotion does not change which properties an attribute defines. -/
theorem declaresAttr_promote (a : Option (List SDecl)) (p : String) :
    declaresAttr (promoteAttr a) p = declaresAttr a p := by
  cases a with
  | none => rfl
  | some ds => simp [declaresAttr, promoteAttr, findDeclValue_map_promote]

/-- Unfolding of `ancDefines` at a cons. -/
theorem ancDefines_cons (p : String) (a : Option (List SDecl))
    (anc : List (Option (List SDecl))) :
    ancDefines p (a :: anc) = (declaresAttr a p || ancDefines p anc) := by
  simp [ancDefines]

/-- When no ancestor defines the property, the ancestor walk returns its
accumulator unchanged. -/
theorem inheritLoop_of_not_defined (p : String)
    (anc : List (Option (List SDecl))) (h : ancDefines p anc = false) :
    ∀ acc, inheritLoop p anc acc = acc := by
  induction anc with
  | nil => intro acc; rfl
  | cons a anc ih =>
      intro acc
      rw [ancDefines_cons] at h
      have h1 : declaresAttr a p = false := by
        cases hd : declaresAttr a p
        · rfl
        · rw [hd] at h; simp at h
      have h2 : ancDefines p anc = false := by
        cases hd : ancDefines p anc
        · rfl
        · rw [hd] at h; simp at h
      rw [inheritLoop]
      have hnone : findDeclValue (a.getD []) p = none := by
        rw [declaresAttr] at h1
        exact Option.not_isSome_iff_eq_none.mp (by simp [h1])
      rw [hnone]
      exact ih h2 acc

/-- Assigning an absent key appends it at the end of the dict. -/
theorem setStyle_absent (st : Styles) (p : String) (v : Entry)
    (h : lookupStyle st p = none) : setStyle st p v = st ++ [(p, v)] := by
  induction st with
  | nil => rfl
  | cons hd t ih =>
      rw [lookupStyle] at h
      cases hh : (hd.1 == p)
      · rw [hh] at h
        simp only [Bool.false_eq_true, if_false] at h
        simp [setStyle, hh, ih h]
      · rw [hh] at h
        simp at h

/-- A key absent from the dict stays absent after appending a different
key. -/
theorem lookupStyle_append_single (st : Styles) (q : String) (v : Entry)
    (p : String) (h1 : lookupStyle st p = none) (h2 : (q == p) = false) :
    lookupStyle (st ++ [(q, v)]) p = none := by
  induction st with
  | nil => simp [lookupStyle, h2]
  | cons hd t ih =>
      rw [lookupStyle] at h1
      cases hh : (hd.1 == p)
      · rw [hh] at h1
        simp only [Bool.false_eq_true, if_false] at h1
        simp only [List.cons_append, lookupStyle, hh, Bool.false_eq_true,
          if_false]
        exact ih h1
      · rw [hh] at h1
        simp at h1

/-- The seed fold over declarations with pairwise-distinct names, starting
from a dict containing none of them, appends them in order as important
entries. -/
theorem seedFold_promote (ds : List SDecl) :
    ∀ st : Styles, (∀ d ∈ ds, lookupStyle st d.name = none) →
      distinctNames ds = true →
      ds.foldl (fun st d => setStyle st d.name ⟨d.value, (1, 0, 0), true⟩) st =
        st ++ ds.map (fun d => (d.name, ⟨d.value, (1, 0, 0), true⟩)) := by
  induction ds with
  | nil => intro st _ _; simp
  | cons d0 ds ih =>
      intro st habs hdn
      rw [distinctNames] at hdn
      rcases Bool.and_eq_true_iff.mp hdn with ⟨hall, hdn2⟩
      simp only [List.foldl, List.map]
      rw [setStyle_absent st d0.name _ (habs d0 (List.mem_cons_self d0 ds))]
      have habs2 : ∀ d ∈ ds,
          lookupStyle (st ++ [(d0.name, ⟨d0.value, (1, 0, 0), true⟩)]) d.name =
            none := by
        intro d hd
        have h3 : (d.name == d0.name) = false := by
          have h4 := List.all_eq_true.mp hall d hd
          simpa using h4
        have hne : (d0.name == d.name) = false := by
          rw [beq_eq_false_iff_ne] at h3 ⊢
          exact fun hcontra => h3 hcontra.symm
        exact lookupStyle_append_single st d0.name _ d.name
          (habs d (List.mem_cons_of_mem d0 hd)) hne
      rw [ih _ habs2 hdn2]
      simp

end Forumlib

namespace Forumlib

/-- Seeding a serialized attribute (distinct names) reproduces it in
order, each entry promoted to important with specificity (1,0,0). -/
theorem seedInline_promote (ds : List SDecl) (hdn : distinctNames ds = true) :
    seedInline ds = ds.map fun d => (d.name, ⟨d.value, (1, 0, 0), true⟩) := by
  rw [seedInline, seedFold_promote ds [] (fun d _ => rfl) hdn]
  simp

/-- The seeded dict defines exactly the names the declaration list
defines. -/
theorem lookupStyle_seedMap (ds : List SDecl) (p : String) :
    (lookupStyle (ds.map fun d => (d.name, ⟨d.value, (1, 0, 0), true⟩)) p).isSome =
      (findDeclValue ds p).isSome := by
  induction ds with
  | nil => rfl
  | cons d ds ih =>
      simp only [List.map, lookupStyle, findDeclValue]
      cases h : (d.name == p) with
      | false => simpa using ih
      | true => simp

/-- Serializing the seeded dict yields the promoted declarations. -/
theorem toDecls_seedMap (ds : List SDecl) :
    toDecls (ds.map fun d => (d.name, ⟨d.value, (1, 0, 0), true⟩)) =
      ds.map promoteDecl := by
  induction ds with
  | nil => rfl
  | cons d ds ih =>
      simp only [List.map, toDecls] at ih ⊢
      rw [ih]
      rfl

/-- An inheritance step is the identity when the property is present or no
ancestor supplies a value. -/
theorem inheritStep_id (anc : List (Option (List SDecl))) (st : Styles)
    (p : String)
    (h : (lookupStyle st p).isSome = true ∨ inheritLoop p anc none = none) :
    inheritStep anc st p = st := by
  rw [inheritStep]
  rcases h with h | h
  · simp [h]
  · cases hs : (lookupStyle st p).isSome
    · simp [hs, h]
    · simp [hs]

/-- The inheritance fold is the identity when every listed property is
present or un-inheritable. -/
theorem foldl_inheritStep_id (anc : List (Option (List SDecl)))
    (ps : List String) (st : Styles)
    (h : ∀ p ∈ ps, (lookupStyle st p).isSome = true ∨
      inheritLoop p anc none = none) :
    ps.foldl (inheritStep anc) st = st := by
  induction ps with
  | nil => rfl
  | cons p ps ih =>
      simp only [List.foldl]
      rw [inheritStep_id anc st p (h p (List.mem_cons_self p ps))]
      exact ih fun q hq => h q (List.mem_cons_of_mem p hq)

/-- The whole inheritance pass is the identity under the same condition
for the fixed inheritable set. -/
theorem applyInheritance_id (anc : List (Option (List SDecl))) (st : Styles)
    (h : ∀ p ∈ INHERITABLE_PROPERTIES, (lookupStyle st p).isSome = true ∨
      inheritLoop p anc none = none) :
    applyInheritance anc st = st :=
  foldl_inheritStep_id anc INHERITABLE_PROPERTIES st h

/-- With no collected rules, resolving an element whose attribute is
well-formed and inheritance-closed against its ancestors reproduces the
attribute with every declaration promoted to important. -/
theorem newStyleAttr_promote (sel : String → Nat → Bool) (eid : Nat)
    (s : Option (List SDecl)) (anc ancP : List (Option (List SDecl)))
    (hgood : goodAttr s = true)
    (hcl : ∀ p ∈ INHERITABLE_PROPERTIES,
      ancDefines p anc = false ∨ declaresAttr s p = true)
    (hanc : ∀ p, ancDefines p ancP = ancDefines p anc) :
    newStyleAttr [] sel eid s ancP = promoteAttr s := by
  cases s with
  | none =>
      rw [newStyleAttr, elemStyles]
      simp only [Option.getD, List.foldl]
      have hseed : seedInline [] = [] := rfl
      rw [hseed]
      rw [applyInheritance_id ancP [] ?_]
      · rfl
      · intro p hp
        right
        rcases hcl p hp with h | h
        · exact inheritLoop_of_not_defined p ancP ((hanc p).trans h) none
        · rw [declaresAttr] at h
          simp [findDeclValue] at h
  | some ds =>
      rw [goodAttr] at hgood
      rcases Bool.and_eq_true_iff.mp hgood with ⟨hne, hdn⟩
      rw [newStyleAttr, elemStyles]
      simp only [Option.getD, List.foldl]
      rw [seedInline_promote ds hdn]
      rw [applyInheritance_id ancP _ ?_]
      · rw [toDecls_seedMap]
        cases ds with
        | nil => simp [List.isEmpty] at hne
        | cons d ds => rfl
      · intro p hp
        rcases hcl p hp with h | h
        · exact Or.inr (inheritLoop_of_not_defined p ancP ((hanc p).trans h) none)
        · left
          rw [lookupStyle_seedMap]
          rw [declaresAttr] at h
          exact h

end Forumlib

namespace Forumlib

mutual
/-- A tree without style tags contributes no rules. -/
theorem collectRules_empty : ∀ n : Node, noStyleTagN n = true →
    collectRules n = []
  | .elem i t s cs, h => by
      rw [collectRules]
      rw [noStyleTagN] at h
      exact collectRulesList_empty cs h
  | .styleTag rs, h => by
      rw [noStyleTagN] at h
      cases h
  | .text s, _ => rfl
/-- A forest without style tags contributes no rules. -/
theorem collectRulesList_empty : ∀ ns : List Node, noStyleTagL ns = true →
    collectRulesList ns = []
  | [], _ => rfl
  | n :: ns, h => by
      rw [noStyleTagL] at h
      rcases Bool.and_eq_true_iff.mp h with ⟨h1, h2⟩
      rw [collectRulesList, collectRules_empty n h1,
        collectRulesList_empty ns h2]
      rfl
end

mutual
/-- Style-tag removal is the identity on a node without style tags. -/
theorem removeStyleTags_id : ∀ n : Node, noStyleTagN n = true →
    removeStyleTags n = n
  | .elem i t s cs, h => by
      rw [removeStyleTags]
      rw [noStyleTagN] at h
      rw [removeStyleTagsList_id cs h]
  | .styleTag rs, h => by
      rw [noStyleTagN] at h
      cases h
  | .text s, _ => rfl
/-- Style-tag removal is the identity on a forest without style tags. -/
theorem removeStyleTagsList_id : ∀ ns : List Node, noStyleTagL ns = true →
    removeStyleTagsList ns = ns
  | [], _ => rfl
  | .elem i t s cs :: ns, h => by
      rw [noStyleTagL] at h
      rcases Bool.and_eq_true_iff.mp h with ⟨h1, h2⟩
      simp only [removeStyleTagsList]
      rw [removeStyleTags_id _ h1, removeStyleTagsList_id ns h2]
  | .styleTag rs :: ns, h => by
      rw [noStyleTagL] at h
      rcases Bool.and_eq_true_iff.mp h with ⟨h1, h2⟩
      rw [noStyleTagN] at h1
      cases h1
  | .text s :: ns, h => by
      rw [noStyleTagL] at h
      rcases Bool.and_eq_true_iff.mp h with ⟨h1, h2⟩
      simp only [removeStyleTagsList]
      rw [removeStyleTags_id _ h1, removeStyleTagsList_id ns h2]
end

mutual
/-- With no rules, processing a well-formed inheritance-closed node
promotes every style attribute and changes nothing else; the processing
ancestors may be any chain defining the same properties as the closure
chain. -/
theorem processTree_promote (sel : String → Nat → Bool) :
    ∀ (anc ancP : List (Option (List SDecl))) (n : Node),
      goodN n = true → closedN anc n = true →
      (∀ p, ancDefines p ancP = ancDefines p anc) →
      processTree [] sel ancP n = promoteTreeN n
  | anc, ancP, .elem eid tag s cs, hg, hc, hanc => by
      rw [goodN] at hg
      rcases Bool.and_eq_true_iff.mp hg with ⟨hga, hgl⟩
      rw [closedN] at hc
      rcases Bool.and_eq_true_iff.mp hc with ⟨hca, hcl⟩
      have hattr : newStyleAttr [] sel eid s ancP = promoteAttr s := by
        apply newStyleAttr_promote sel eid s anc ancP hga ?_ hanc
        intro p hp
        have h2 := List.all_eq_true.mp hca p hp
        cases hd : ancDefines p anc
        · exact Or.inl rfl
        · right
          rw [hd] at h2
          simpa using h2
      simp only [processTree, promoteTreeN]
      rw [hattr]
      rw [processTreeList_promote sel (s :: anc) (promoteAttr s :: ancP) cs
        hgl hcl ?_]
      intro p
      rw [ancDefines_cons, ancDefines_cons, declaresAttr_promote, hanc p]
  | anc, ancP, .styleTag rs, _, _, _ => rfl
  | anc, ancP, .text s, _, _, _ => rfl
/-- The forest version of `processTree_promote`. -/
theorem processTreeList_promote (sel : String → Nat → Bool) :
    ∀ (anc ancP : List (Option (List SDecl))) (ns : List Node),
      goodL ns = true → closedL anc ns = true →
      (∀ p, ancDefines p ancP = ancDefines p anc) →
      processTreeList [] sel ancP ns = promoteTreeL ns
  | anc, ancP, [], _, _, _ => rfl
  | anc, ancP, n :: ns, hg, hc, hanc => by
      rw [goodL] at hg
      rcases Bool.and_eq_true_iff.mp hg with ⟨hg1, hg2⟩
      rw [closedL] at hc
      rcases Bool.and_eq_true_iff.mp hc with ⟨hc1, hc2⟩
      rw [processTreeList, promoteTreeL,
        processTree_promote sel anc ancP n hg1 hc1 hanc,
        processTreeList_promote sel anc ancP ns hg2 hc2 hanc]
end

/-- A resolution run on a stylesheet-free, well-formed,
inheritance-closed forest is exactly attribute promotion. -/
theorem applyCss_promote (sel : String → Nat → Bool) (roots : List Node)
    (hn : noStyleTagL roots = true) (hg : goodL roots = true)
    (hc : closedL [] roots = true) :
    applyCss sel roots = promoteTreeL roots := by
  rw [applyCss]
  simp only [collectRulesList_empty roots hn, removeStyleTagsList_id roots hn]
  exact processTreeList_promote sel [] [] roots hg hc (fun p => rfl)

end Forumlib

namespace Forumlib

/-- Promotion keeps the name-distinctness of a declaration list. -/
theorem distinctNames_map_promote (ds : List SDecl) :
    distinctNames (ds.map promoteDecl) = distinctNames ds := by
  induction ds with
  | nil => rfl
  | cons d ds ih =>
      simp only [List.map, distinctNames, List.all_map, promoteDecl]
      rw [ih]
      rfl

/-- Promotion keeps attribute well-formedness. -/
theorem goodAttr_promote (s : Option (List SDecl)) :
    goodAttr (promoteAttr s) = goodAttr s := by
  cases s with
  | none => rfl
  | some ds =>
      cases ds with
      | nil => rfl
      | cons d ds =>
          have h := distinctNames_map_promote (d :: ds)
          simp only [List.map_cons] at h
          simp only [promoteAttr, goodAttr, List.map_cons, List.isEmpty_cons]
          rw [h]

mutual
/-- Promotion keeps node well-formedness. -/
theorem goodN_promote : ∀ n : Node, goodN (promoteTreeN n) = goodN n
  | .elem i t s cs => by
      rw [promoteTreeN, goodN, goodN, goodAttr_promote, goodL_promote cs]
  | .styleTag rs => rfl
  | .text s => rfl
/-- Promotion keeps forest well-formedness. -/
theorem goodL_promote : ∀ ns : List Node, goodL (promoteTreeL ns) = goodL ns
  | [] => rfl
  | n :: ns => by
      rw [promoteTreeL, goodL, goodL, goodN_promote n, goodL_promote ns]
end

mutual
/-- Promotion keeps inheritance-closure, for any ancestor chain defining
the same properties. -/
theorem closedN_promote : ∀ (anc ancP : List (Option (List SDecl)))
    (n : Node), closedN anc n = true →
    (∀ p, ancDefines p ancP = ancDefines p anc) →
    closedN ancP (promoteTreeN n) = true
  | anc, ancP, .elem i t s cs, hc, hanc => by
      rw [closedN] at hc
      rcases Bool.and_eq_true_iff.mp hc with ⟨hca, hcl⟩
      rw [promoteTreeN, closedN]
      apply Bool.and_eq_true_iff.mpr
      constructor
      · apply List.all_eq_true.mpr
        intro p hp
        have h2 := List.all_eq_true.mp hca p hp
        rw [declaresAttr_promote, hanc p]
        exact h2
      · exact closedL_promote (s :: anc) (promoteAttr s :: ancP) cs hcl
          fun p => by
            rw [ancDefines_cons, ancDefines_cons, declaresAttr_promote, hanc p]
  | anc, ancP, .styleTag rs, _, _ => rfl
  | anc, ancP, .text s, _, _ => rfl
/-- The forest version of `closedN_promote`. -/
theorem closedL_promote : ∀ (anc ancP : List (Option (List SDecl)))
    (ns : List Node), closedL anc ns = true →
    (∀ p, ancDefines p ancP = ancDefines p anc) →
    closedL ancP (promoteTreeL ns) = true
  | anc, ancP, [], _, _ => rfl
  | anc, ancP, n :: ns, hc, hanc => by
      rw [closedL] at hc
      rcases Bool.and_eq_true_iff.mp hc with ⟨hc1, hc2⟩
      rw [promoteTreeL, closedL, closedN_promote anc ancP n hc1 hanc,
        closedL_promote anc ancP ns hc2 hanc]
      rfl
end

mutual
/-- Promotion introduces no style tag in a node. -/
theorem noStyleTagN_promote : ∀ n : Node,
    noStyleTagN (promoteTreeN n) = noStyleTagN n
  | .elem i t s cs => by
      rw [promoteTreeN, noStyleTagN, noStyleTagN, noStyleTagL_promote cs]
  | .styleTag rs => rfl
  | .text s => rfl
/-- Promotion introduces no style tag in a forest. -/
theorem noStyleTagL_promote : ∀ ns : List Node,
    noStyleTagL (promoteTreeL ns) = noStyleTagL ns
  | [] => rfl
  | n :: ns => by
      rw [promoteTreeL, noStyleTagL, noStyleTagL, noStyleTagN_promote n,
        noStyleTagL_promote ns]
end

/-- Promoting twice is promoting once (attribute level). -/
theorem promoteAttr_idem (s : Option (List SDecl)) :
    promoteAttr (promoteAttr s) = promoteAttr s := by
  cases s with
  | none => rfl
  | some ds =>
      simp only [promoteAttr, List.map_map, Option.some.injEq]
      apply List.map_congr_left
      intro d _
      rfl

mutual
/-- Promoting twice is promoting once (node level). -/
theorem promoteTreeN_idem : ∀ n : Node,
    promoteTreeN (promoteTreeN n) = promoteTreeN n
  | .elem i t s cs => by
      rw [promoteTreeN, promoteTreeN, promoteAttr_idem, promoteTreeL_idem cs]
  | .styleTag rs => rfl
  | .text s => rfl
/-- Promoting twice is promoting once (forest level). -/
theorem promoteTreeL_idem : ∀ ns : List Node,
    promoteTreeL (promoteTreeL ns) = promoteTreeL ns
  | [] => rfl
  | n :: ns => by
      rw [promoteTreeL, promoteTreeL, promoteTreeN_idem n, promoteTreeL_idem ns]
end

/-- C6 amended: on an already-resolved forest (no style tags, every style
attribute a non-empty duplicate-free declaration list or absent, and
inheritance-closed — all properties of the resolver's own output), a
resolution run equals attribute promotion, so it is idempotent from the
second application onward: running the resolver twice equals running it
once, even though that single run is itself not the identity (it promotes
every declaration to `!important`, as the counterexample shows). -/
theorem c6_amended (sel : String → Nat → Bool) (roots : List Node)
    (hn : noStyleTagL roots = true) (hg : goodL roots = true)
    (hc : closedL [] roots = true) :
    applyCss sel (applyCss sel roots) = applyCss sel roots := by
  rw [applyCss_promote sel roots hn hg hc]
  rw [applyCss_promote sel (promoteTreeL roots)
    (by rw [noStyleTagL_promote]; exact hn)
    (by rw [goodL_promote]; exact hg)
    (closedL_promote [] [] roots hc fun p => rfl)]
  exact promoteTreeL_idem roots

/-- C6 amended witness: the first run's output on the counterexample
document is stylesheet-free, well-formed and closed, and the second and
third runs on it coincide. -/
theorem c6_amended_witness :
    applyCss c6sel (applyCss c6sel
      [.elem 1 "p" (some [⟨"color", "red", false⟩]) []]) =
    applyCss c6sel [.elem 1 "p" (some [⟨"color", "red", false⟩]) []] :=
  c6_amended c6sel [.elem 1 "p" (some [⟨"color", "red", false⟩]) []]
    (by decide) (by decide) (by decide)

end Forumlib
